import Mathlib

/-!
Verification of the LTSpice data-file parser (`src/main.py`, class
`LTSpiceDataAnalyzer`) against its natural-language specification.

The parser is embedded shallowly: the analyzer's mutable fields become an
explicit `AnalyzerState` threaded through the functions, Python exceptions
become an error value returned next to the (possibly partially mutated)
state, and Python dicts become insertion-ordered association lists with
update-in-place semantics.  Floating-point values are represented by their
(whitespace-stripped) literal text: every property checked here depends
only on whether `float()` succeeds and on the structure of the resulting
records, never on float arithmetic.
-/

namespace LTSpice

/-- Decidable equality for `Except`, needed to evaluate concrete decoder
results by `decide`. -/
instance {ε α : Type} [DecidableEq ε] [DecidableEq α] : DecidableEq (Except ε α) := fun x y =>
  match x, y with
  | Except.ok a, Except.ok b =>
    if h : a = b then isTrue (congrArg Except.ok h)
    else isFalse (fun hh => h (Except.ok.inj hh))
  | Except.error a, Except.error b =>
    if h : a = b then isTrue (congrArg Except.error h)
    else isFalse (fun hh => h (Except.error.inj hh))
  | Except.ok _, Except.error _ => isFalse (fun hh => Except.noConfusion hh)
  | Except.error _, Except.ok _ => isFalse (fun hh => Except.noConfusion hh)

/-! ## Generic Python-dict model: insertion-ordered association lists -/

section Dict

variable {κ α : Type} [DecidableEq κ]

/-- Membership test for a key, as Python's `k in d`. -/
def dictHas (d : List (κ × α)) (k : κ) : Bool :=
  match d with
  | [] => false
  | e :: es => decide (e.1 = k) || dictHas es k

/-- Lookup, as Python's `d[k]` (first — and, with unique keys, only — hit). -/
def dictGet? (d : List (κ × α)) (k : κ) : Option α :=
  match d with
  | [] => none
  | e :: es => if e.1 = k then some e.2 else dictGet? es k

/-- Assignment `d[k] = v`: overwrite in place keeping the key's original
position, or append a fresh key at the end — Python dict semantics. -/
def dictUpd (d : List (κ × α)) (k : κ) (v : α) : List (κ × α) :=
  if dictHas d k = true then d.map (fun p => if p.1 = k then (k, v) else p)
  else d ++ [(k, v)]

/-- The keys, in insertion order. -/
def dictKeys (d : List (κ × α)) : List κ := d.map Prod.fst

/-- Run a sequence of assignments left to right. -/
def insertAll (d : List (κ × α)) : List (κ × α) → List (κ × α)
  | [] => d
  | e :: es => insertAll (dictUpd d e.1 e.2) es

/-- The value of the last assignment to `k` in a sequence of assignments. -/
def lastVal (k : κ) : List (κ × α) → Option α
  | [] => none
  | e :: es =>
    match lastVal k es with
    | some v => some v
    | none => if e.1 = k then some e.2 else none

end Dict

/-! ## Character and string helpers mirroring the Python primitives -/

/-- The whitespace characters stripped by `str.rstrip()` / `float()` / `int()`
(the ASCII subset, which is all the inputs at hand can contain). -/
def isPyWs (c : Char) : Bool :=
  c == ' ' || c == '\t' || c == '\n' || c == '\r' || c == '\x0c' || c == '\x0b'

/-- Python `str.rstrip()`. -/
def rstrip (s : String) : String :=
  String.mk ((s.data.reverse.dropWhile isPyWs).reverse)

/-- Strip whitespace from both ends, as `float()` / `int()` do before parsing. -/
def stripWs (l : List Char) : List Char :=
  ((l.dropWhile isPyWs).reverse.dropWhile isPyWs).reverse

/-- Substring test on character lists (Python's `needle in hay`). -/
def subList (n : List Char) : List Char → Bool
  | [] => n.isEmpty
  | c :: t => n.isPrefixOf (c :: t) || subList n t

/-- Python's case-sensitive substring test `needle in hay`. -/
def containsSub (needle hay : String) : Bool :=
  subList needle.data hay.data

/-- Python `str.split(sep)` for a one-character separator: no collapsing of
adjacent separators, and the empty string splits to `[""]`. -/
def splitOnChar (sep : Char) : List Char → List (List Char)
  | [] => [[]]
  | c :: r =>
    let rest := splitOnChar sep r
    if c == sep then [] :: rest
    else
      match rest with
      | [] => [[c]]      -- unreachable: splitOnChar always returns a nonempty list
      | h :: t => (c :: h) :: t

/-- `line.split('\t')` from the source. -/
def splitTab (s : String) : List String :=
  (splitOnChar '\t' s.data).map String.mk

/-! ## Numeric literal recognition

`float()` and `int()` are Python builtins; we model the subset of their
literal grammar exercised by LTSpice exports (optional surrounding
whitespace, optional sign, decimal digits, decimal point, exponent).
`inf`/`nan` and underscore separators are not modelled: no claim depends
on them.  A successfully parsed float is represented by its stripped
literal text, since no verified property depends on its numeric value. -/

/-- Consume `digits [. digits]` (at least one digit overall); return the rest. -/
def floatMantissa (l : List Char) : Option (List Char) :=
  let intPart := l.takeWhile Char.isDigit
  let r1 := l.dropWhile Char.isDigit
  match r1 with
  | '.' :: r2 =>
    let fracPart := r2.takeWhile Char.isDigit
    if intPart.isEmpty && fracPart.isEmpty then none
    else some (r2.dropWhile Char.isDigit)
  | _ => if intPart.isEmpty then none else some r1

/-- The exponent tail after `e`/`E`: optional sign then at least one digit. -/
def expTail (l : List Char) : Bool :=
  let l' := match l with
    | '+' :: r => r
    | '-' :: r => r
    | r => r
  !l'.isEmpty && l'.all Char.isDigit

/-- Recognize a float literal (already stripped of whitespace). -/
def isFloatCore (l : List Char) : Bool :=
  let l' := match l with
    | '+' :: r => r
    | '-' :: r => r
    | r => r
  match floatMantissa l' with
  | none => false
  | some rest =>
    match rest with
    | [] => true
    | 'e' :: r2 => expTail r2
    | 'E' :: r2 => expTail r2
    | _ => false

/-- Does `float(s)` succeed? -/
def isFloatLit (s : String) : Bool := isFloatCore (stripWs s.data)

/-- `float(s)`, returning the stripped literal as the float's identity. -/
def pyFloat (s : String) : Option String :=
  if isFloatLit s = true then some (String.mk (stripWs s.data)) else none

/-- `int(s)`: stripped, optional sign, at least one digit. -/
def pyInt (s : String) : Option Int :=
  let digitsVal : List Char → Option Int := fun ds =>
    if !ds.isEmpty && ds.all Char.isDigit then
      some (Int.ofNat (ds.foldl (fun acc c => acc * 10 + (c.toNat - '0'.toNat)) 0))
    else none
  match stripWs s.data with
  | '+' :: ds => digitsVal ds
  | '-' :: ds => (digitsVal ds).map (fun n => -n)
  | ds => digitsVal ds

/-! ## Data model -/

/-- `LTSpiceDataAnalyzer.FileType`.  The spec's `SweepKind` names map as
`Transient ↦ TRANSIENT`, `FrequencyResponse ↦ AC_FREQUENCY_PHASE`,
`Invalid ↦ INVALID`. -/
inductive FileType where
  | INVALID
  | TRANSIENT
  | AC_FREQUENCY_PHASE
  | AC_REAL_IMAG
deriving DecidableEq

/-- The failure modes the parser can actually raise past `parse_data_file`:
`invalidFile` models `InvalidFileException`, `invalidData` models
`InvalidDataException` (the spec's `InvalidDataFormat`/`InvalidStepHeader`),
`attributeError` models the `AttributeError` Python raises when `.groups()`
is called on the `None` returned by a failed `re.match`, and `valueError`
models the `ValueError` raised by `float()`/`int()` on unparsable text. -/
inductive PyErr where
  | invalidFile
  | invalidData
  | attributeError
  | valueError
deriving DecidableEq

/-- One parsed data record: the dict appended to `self.data[step]`.
Float fields carry their stripped literal text. -/
inductive Record where
  | freq (frequency amplitude phase : String)
  | trans (time : String) (output : List (String × String))
deriving DecidableEq

/-- The `output` mapping of a transient record (empty for a frequency record). -/
def transOutputs : Record → List (String × String)
  | .freq _ _ _ => []
  | .trans _ o => o

/-- The analyzer's mutable fields.  `stepValues` models `StepInfo.values`,
which in the source is a *class* attribute: the dict object is shared by
every `StepInfo()` instance, so `parse_data_file`'s fresh `StepInfo()` does
not reset it.  `stepLabel` models `StepInfo.label`, which is written as an
instance attribute and so really is fresh per parse. -/
structure AnalyzerState where
  file_type : FileType
  probe_points : List String
  stepLabel : Option String
  stepValues : List (Int × String)
  data : List (Int × List Record)
deriving DecidableEq

/-- The analyzer as constructed: `__init__` nulls the per-instance fields
(all of them are overwritten by `parse_data_file` before any use), and the
class-level `StepInfo.values` dict starts empty. -/
def initState : AnalyzerState :=
  { file_type := FileType.INVALID
    probe_points := []
    stepLabel := none
    stepValues := []
    data := [] }

/-! ## The step-boundary pattern

`_parse_parameter_step` matches
`^Step\ Information: ([^=]*)=([^\(\ ]*)[\ (]*Run: ([^\/]*)\/([^)]*)\)`.
The pieces `([^=]*)=`, `([^\/]*)\/` and `([^)]*)\)` are deterministic
(each star excludes the character that must follow it), but between group
2 and the literal `Run: ` the engine can backtrack: group 2 `([^\(\ ]*)`
is tried greedily and then shortened.  For a shortened group 2 the gap
`[\ (]*` necessarily matches empty (the next character is inside group 2's
span, hence neither a space nor `(`), and a shortened *gap* never helps
(the next character would be a space or `(`, which cannot start `Run: `),
so the candidates below — maximal gap with the full group 2, then empty
gap at each shorter prefix of group 2, in decreasing length — are exactly
the engine's search order. -/

/-- Match `Run: ([^\/]*)\/([^)]*)\)` at the head of `s`, returning
(group 3, group 4); text after the `)` is ignored (`re.match` is a
prefix match). -/
def stepTail (s : List Char) : Option (List Char × List Char) :=
  match s with
  | 'R' :: 'u' :: 'n' :: ':' :: ' ' :: rest =>
    let g3 := rest.takeWhile (fun c => c != '/')
    match rest.dropWhile (fun c => c != '/') with
    | '/' :: rest2 =>
      let g4 := rest2.takeWhile (fun c => c != ')')
      match rest2.dropWhile (fun c => c != ')') with
      | ')' :: _ => some (g3, g4)
      | _ => none
    | _ => none
  | _ => none

/-- Try the candidate where group 2 is the first `j` characters of its
maximal span `M`, with the gap `[\ (]*` taken greedily from there. -/
def stepAttempt (M rest1 : List Char) (j : Nat) :
    Option (List Char × List Char × List Char) :=
  let rem := M.drop j ++ rest1
  match stepTail (rem.dropWhile (fun c => c == ' ' || c == '(')) with
  | some (g3, g4) => some (M.take j, g3, g4)
  | none => none

/-- Backtracking search over group 2's length, longest first. -/
def stepSearch (M rest1 : List Char) : Nat → Option (List Char × List Char × List Char)
  | 0 => stepAttempt M rest1 0
  | j + 1 =>
    match stepAttempt M rest1 (j + 1) with
    | some r => some r
    | none => stepSearch M rest1 j

/-- The whole step-boundary pattern; returns (group 1 … group 4) on a match. -/
def matchStepLine (l : List Char) : Option (List Char × List Char × List Char × List Char) :=
  let m := "Step Information: ".data
  if m.isPrefixOf l = true then
    let r0 := l.drop m.length
    let g1 := r0.takeWhile (fun c => c != '=')
    match r0.dropWhile (fun c => c != '=') with
    | '=' :: r1 =>
      let M := r1.takeWhile (fun c => !(c == ' ' || c == '('))
      let rest1 := r1.dropWhile (fun c => !(c == ' ' || c == '('))
      match stepSearch M rest1 M.length with
      | some (g2, g3, g4) => some (g1, g2, g3, g4)
      | none => none
    | _ => none
  else none

/-- `_parse_parameter_step` (src/main.py lines 139-152).  On a failed match
Python raises `AttributeError` (`matches` is `None`); the guard
`len(matches.groups()) != 4` after a successful match is always false — the
pattern has exactly four groups — so the `InvalidDataException` there is
unreachable.  On a successful match the label is stored first (line 144);
then `int(matches.group(3))` on line 145 raises an uncaught `ValueError` if
the run field is not an integer, *before* the guarded `try` on lines
147-150, whose `sys.exit(-1)` is therefore unreachable; otherwise the
values dict is updated and the run index returned. -/
def parseParameterStep (l : String) (st : AnalyzerState) :
    AnalyzerState × Except PyErr Int :=
  match matchStepLine l.data with
  | none => (st, .error .attributeError)
  | some (g1, g2, g3, _g4) =>
    match pyInt (String.mk g3) with
    | none => ({ st with stepLabel := some (String.mk g1) }, .error .valueError)
    | some n =>
      ({ st with
          stepLabel := some (String.mk g1)
          stepValues := dictUpd st.stepValues n (rstrip (String.mk g2)) },
        .ok n)

/-! ## The frequency-record pattern

`_parse_freq_file` matches `^([^\t]*)\t\(([^dB]*)dB,([^°]*)°\)` with
`re.match` (anchored at the start, trailing text ignored).  Every star
excludes the character that must follow it, so the match is deterministic
and equals the greedy take/drop decomposition below. -/

/-- The `([^°]*)°\)` piece: group 3 runs to the degree glyph, which must be
followed by `)`; anything after the `)` is ignored. -/
def freqTail2 (r3 g1 g2 : List Char) : Option (List Char × List Char × List Char) :=
  match r3.dropWhile (fun c => c != '°') with
  | '°' :: ')' :: _ => some (g1, g2, r3.takeWhile (fun c => c != '°'))
  | _ => none

/-- The `([^dB]*)dB,` piece: group 2 runs to the first `d` or `B`, which must
start the literal `dB,`. -/
def freqTail1 (r2 g1 : List Char) : Option (List Char × List Char × List Char) :=
  match r2.dropWhile (fun c => !(c == 'd' || c == 'B')) with
  | 'd' :: 'B' :: ',' :: r3 =>
    freqTail2 r3 g1 (r2.takeWhile (fun c => !(c == 'd' || c == 'B')))
  | _ => none

/-- The whole pattern: group 1 runs to the first tab, which must be followed
by `(`. -/
def matchFreqLine (l : List Char) : Option (List Char × List Char × List Char) :=
  match l.dropWhile (fun c => c != '\t') with
  | '\t' :: '(' :: r2 => freqTail1 r2 (l.takeWhile (fun c => c != '\t'))
  | _ => none

/-- Decoding of one frequency data line (src/main.py lines 109-117).  A
failed match raises `AttributeError` (`.groups()` on `None`); the guard
`len(matches.groups()) != 3` is always false after a successful match (the
pattern has exactly three groups), so `InvalidDataException` is unreachable
here too; then the three `float()` calls can raise `ValueError`. -/
def decodeFreqLine (l : String) : Except PyErr Record :=
  match matchFreqLine l.data with
  | none => .error .attributeError
  | some (g1, g2, g3) =>
    match pyFloat (String.mk g1) with
    | none => .error .valueError
    | some fr =>
      match pyFloat (String.mk g2) with
      | none => .error .valueError
      | some am =>
        match pyFloat (String.mk g3) with
        | none => .error .valueError
        | some ph => .ok (.freq fr am ph)

/-- The per-probe loop of `parse_transient_file` (lines 135-136): each
`float()` can raise `ValueError`; values land in the `output` dict in
`probe_points` order. -/
def buildOutputs : List (String × String) → List (String × String) →
    Except PyErr (List (String × String))
  | [], acc => .ok acc
  | (p, f) :: rest, acc =>
    match pyFloat f with
    | none => .error .valueError
    | some v => buildOutputs rest (dictUpd acc p v)

/-- Decoding of one transient data line (src/main.py lines 127-137): split
on tab, require exactly `len(probe_points) + 1` fields — this check *is*
reachable, raising `InvalidDataException` — then `float()` each field. -/
def decodeTransLine (pp : List String) (l : String) : Except PyErr Record :=
  if (splitTab l).length ≠ pp.length + 1 then .error .invalidData
  else
    match pyFloat ((splitTab l).headD "") with
    | none => .error .valueError
    | some t =>
      match buildOutputs (pp.zip ((splitTab l).drop 1)) [] with
      | .error e => .error e
      | .ok outs => .ok (.trans t outs)

/-! ## The line loop shared by `_parse_freq_file` and `parse_transient_file`

The two methods are line-for-line identical except for the decoding of a
data line, so they are embedded as one loop over the remaining lines,
parameterized by the decoder.  A raised exception aborts the loop and is
returned next to the state as mutated so far. -/

def parseLoop (decode : String → Except PyErr Record) :
    Int → AnalyzerState → List String → AnalyzerState × Option PyErr
  | _, st, [] => (st, none)
  | cur, st, l :: ls =>
    if containsSub "Step Information:" l = true then
      match parseParameterStep l st with
      | (st', .error e) => (st', some e)
      | (st', .ok n) =>
        parseLoop decode n { st' with data := dictUpd st'.data n [] } ls
    else
      match decode l with
      | .error e => (st, some e)
      | .ok r =>
        parseLoop decode cur
          { st with data := st.data.map (fun p => if p.1 = cur then (p.1, p.2 ++ [r]) else p) } ls

/-- `_parse_freq_file` (lines 101-117): step 0 starts with an empty bucket. -/
def parse_freq_file (st : AnalyzerState) (ls : List String) :
    AnalyzerState × Option PyErr :=
  parseLoop decodeFreqLine 0 { st with data := dictUpd st.data 0 [] } ls

/-- `parse_transient_file` (lines 119-137). -/
def parse_transient_file (st : AnalyzerState) (ls : List String) :
    AnalyzerState × Option PyErr :=
  parseLoop (decodeTransLine st.probe_points) 0
    { st with data := dictUpd st.data 0 [] } ls

/-- Header classification (lines 83-86): a case-sensitive substring test on
the first tab-separated field, `'Freq.'` checked before `'time'`. -/
def classifyHeaderField (s : String) : FileType :=
  if containsSub "Freq." s = true then FileType.AC_FREQUENCY_PHASE
  else if containsSub "time" s = true then FileType.TRANSIENT
  else FileType.INVALID

/-- The first line read by `file.readline()` (`""` at end of file). -/
def headLine (lines : List String) : String :=
  match lines with
  | [] => ""
  | h :: _ => h

/-- The lines iterated by `for line in file` after the header. -/
def bodyLines (lines : List String) : List String :=
  match lines with
  | [] => []
  | _ :: t => t

/-- `parse_data_file` (src/main.py lines 70-99) on the file's decoded
lines.  Lines 71-74 re-initialize the per-instance fields (`file_type`,
`probe_points`, a fresh `StepInfo()` whose `label` reads as `None`, and
`data`); the class-level `StepInfo.values` dict is *not* re-created.  The
header is split on tab, its first field classified, the rest become the
probe list (rstripped); then the matching sub-parser runs, or — when the
header matched neither token — the method returns normally. -/
def parse_data_file (st : AnalyzerState) (lines : List String) :
    AnalyzerState × Option PyErr :=
  let hsplit := splitTab (headLine lines)
  let ft := classifyHeaderField (hsplit.headD "")
  let pp := (hsplit.drop 1).map rstrip
  let st1 : AnalyzerState :=
    { file_type := ft
      probe_points := pp
      stepLabel := none
      stepValues := st.stepValues
      data := [] }
  match ft with
  | FileType.AC_FREQUENCY_PHASE => parse_freq_file st1 (bodyLines lines)
  | FileType.TRANSIENT => parse_transient_file st1 (bodyLines lines)
  | _ => (st1, none)

/-! ## Specification helpers

Ghost functions used only to state and prove properties of the loop: the
step-table entry contributed by one step-boundary line, and the sequence
of entries contributed by a run of the loop (cut off at the first line
that raises). -/

/-- The `(run index, rstripped value)` assignment a step-boundary line makes
to `StepInfo.values`, or `none` when the line raises instead. -/
def stepEntry (l : String) : Option (Int × String) :=
  match matchStepLine l.data with
  | none => none
  | some (_g1, g2, g3, _g4) =>
    match pyInt (String.mk g3) with
    | none => none
    | some n => some (n, rstrip (String.mk g2))

/-- The `StepInfo.values` assignments performed by `parseLoop` on `ls`, in
order, stopping at the first failing line. -/
def loopEntries (decode : String → Except PyErr Record) : List String → List (Int × String)
  | [] => []
  | l :: ls =>
    if containsSub "Step Information:" l = true then
      match stepEntry l with
      | none => []
      | some e => e :: loopEntries decode ls
    else
      match decode l with
      | .error _ => []
      | .ok _ => loopEntries decode ls

/-! ## Dictionary lemmas

The facts about insertion-ordered association lists used below: lookups
and keys after an update, preservation of key uniqueness, extensionality,
and idempotence of replaying the same assignment sequence. -/

section DictLemmas

variable {κ α : Type} [DecidableEq κ]

theorem dictKeys_cons (e : κ × α) (es : List (κ × α)) :
    dictKeys (e :: es) = e.1 :: dictKeys es := rfl

theorem dictGet?_cons (e : κ × α) (es : List (κ × α)) (k : κ) :
    dictGet? (e :: es) k = if e.1 = k then some e.2 else dictGet? es k := rfl

theorem dictHas_iff_mem (d : List (κ × α)) (k : κ) :
    dictHas d k = true ↔ k ∈ dictKeys d := by
  induction d with
  | nil => simp [dictHas, dictKeys]
  | cons e es ih =>
    rw [dictKeys_cons]
    simp only [dictHas, Bool.or_eq_true, decide_eq_true_eq, ih, List.mem_cons]
    constructor
    · rintro (h | h)
      · exact Or.inl h.symm
      · exact Or.inr h
    · rintro (h | h)
      · exact Or.inl h.symm
      · exact Or.inr h

theorem dictGet?_mapRepl_self (d : List (κ × α)) (k : κ) (v : α)
    (h : dictHas d k = true) :
    dictGet? (d.map (fun p => if p.1 = k then (k, v) else p)) k = some v := by
  induction d with
  | nil => simp [dictHas] at h
  | cons e es ih =>
    by_cases he : e.1 = k
    · simp [dictGet?, he]
    · have h' : dictHas es k = true := by simpa [dictHas, he] using h
      simp [dictGet?, he, ih h']

theorem dictGet?_mapRepl_ne (d : List (κ × α)) (k k' : κ) (v : α) (hne : k' ≠ k) :
    dictGet? (d.map (fun p => if p.1 = k then (k, v) else p)) k' = dictGet? d k' := by
  induction d with
  | nil => rfl
  | cons e es ih =>
    rw [List.map_cons, dictGet?_cons, dictGet?_cons, ih]
    by_cases he : e.1 = k
    · rw [if_pos he]
      show (if k = k' then some v else dictGet? es k') = _
      have h1 : ¬ (k = k') := fun hh => hne hh.symm
      have h2 : ¬ (e.1 = k') := by
        rw [he]
        exact h1
      rw [if_neg h1, if_neg h2]
    · rw [if_neg he]

theorem dictGet?_append_single_self (d : List (κ × α)) (k : κ) (v : α)
    (h : dictHas d k = false) :
    dictGet? (d ++ [(k, v)]) k = some v := by
  induction d with
  | nil => simp [dictGet?]
  | cons e es ih =>
    have he : ¬ (e.1 = k) := by
      intro hk
      simp [dictHas, hk] at h
    have h' : dictHas es k = false := by
      cases h2 : dictHas es k
      · rfl
      · simp [dictHas, h2] at h
    simp [dictGet?, he, ih h']

theorem dictGet?_append_single_ne (d : List (κ × α)) (k k' : κ) (v : α)
    (hne : k' ≠ k) :
    dictGet? (d ++ [(k, v)]) k' = dictGet? d k' := by
  induction d with
  | nil =>
    show dictGet? [(k, v)] k' = dictGet? ([] : List (κ × α)) k'
    rw [dictGet?_cons]
    have h1 : ¬ (k = k') := fun hh => hne hh.symm
    rw [if_neg h1]
  | cons e es ih =>
    rw [List.cons_append, dictGet?_cons, dictGet?_cons, ih]

theorem dictGet?_upd_self (d : List (κ × α)) (k : κ) (v : α) :
    dictGet? (dictUpd d k v) k = some v := by
  unfold dictUpd
  cases h : dictHas d k
  · simp only [Bool.false_eq_true, if_neg, not_false_eq_true]
    exact dictGet?_append_single_self d k v h
  · simp only [if_pos]
    exact dictGet?_mapRepl_self d k v h

theorem dictGet?_upd_ne (d : List (κ × α)) (k k' : κ) (v : α) (hne : k' ≠ k) :
    dictGet? (dictUpd d k v) k' = dictGet? d k' := by
  unfold dictUpd
  cases h : dictHas d k
  · simp only [Bool.false_eq_true, if_neg, not_false_eq_true]
    exact dictGet?_append_single_ne d k k' v hne
  · simp only [if_pos]
    exact dictGet?_mapRepl_ne d k k' v hne

theorem dictKeys_mapRepl (d : List (κ × α)) (k : κ) (v : α) :
    dictKeys (d.map (fun p => if p.1 = k then (k, v) else p)) = dictKeys d := by
  induction d with
  | nil => rfl
  | cons e es ih =>
    by_cases he : e.1 = k <;> simp [dictKeys, he, ih] <;> simp [dictKeys] at ih <;>
      simpa [he] using ih

theorem dictKeys_upd_of_has (d : List (κ × α)) (k : κ) (v : α)
    (h : dictHas d k = true) :
    dictKeys (dictUpd d k v) = dictKeys d := by
  unfold dictUpd
  simp only [h, if_pos]
  exact dictKeys_mapRepl d k v

theorem dictKeys_upd_of_not_has (d : List (κ × α)) (k : κ) (v : α)
    (h : dictHas d k = false) :
    dictKeys (dictUpd d k v) = dictKeys d ++ [k] := by
  unfold dictUpd
  simp [h, dictKeys]

theorem dictHas_upd_self (d : List (κ × α)) (k : κ) (v : α) :
    dictHas (dictUpd d k v) k = true := by
  rw [dictHas_iff_mem]
  cases h : dictHas d k
  · rw [dictKeys_upd_of_not_has d k v h]
    simp
  · rw [dictKeys_upd_of_has d k v h]
    exact (dictHas_iff_mem d k).mp h

theorem dictHas_upd_of_has (d : List (κ × α)) (k k' : κ) (v : α)
    (h : dictHas d k' = true) :
    dictHas (dictUpd d k v) k' = true := by
  rw [dictHas_iff_mem]
  cases h2 : dictHas d k
  · rw [dictKeys_upd_of_not_has d k v h2]
    exact List.mem_append_left _ ((dictHas_iff_mem d k').mp h)
  · rw [dictKeys_upd_of_has d k v h2]
    exact (dictHas_iff_mem d k').mp h

theorem nodup_keys_upd (d : List (κ × α)) (k : κ) (v : α)
    (h : (dictKeys d).Nodup) : (dictKeys (dictUpd d k v)).Nodup := by
  cases h2 : dictHas d k
  · rw [dictKeys_upd_of_not_has d k v h2]
    have hk : k ∉ dictKeys d := fun hm => by
      rw [← dictHas_iff_mem] at hm
      rw [hm] at h2
      cases h2
    simp [List.nodup_append, h, hk]
  · rw [dictKeys_upd_of_has d k v h2]
    exact h

theorem dictHas_insertAll_of_has (es : List (κ × α)) :
    ∀ (d : List (κ × α)) (k : κ), dictHas d k = true →
      dictHas (insertAll d es) k = true := by
  induction es with
  | nil => intro d k h; exact h
  | cons e es ih =>
    intro d k h
    exact ih (dictUpd d e.1 e.2) k (dictHas_upd_of_has d e.1 k e.2 h)

theorem dictHas_insertAll_of_mem (es : List (κ × α)) :
    ∀ (d : List (κ × α)) (k : κ), k ∈ dictKeys es →
      dictHas (insertAll d es) k = true := by
  induction es with
  | nil => intro d k h; cases h
  | cons e es ih =>
    intro d k h
    rw [dictKeys_cons] at h
    rcases List.mem_cons.mp h with h1 | h1
    · exact dictHas_insertAll_of_has es (dictUpd d e.1 e.2) k
        (h1 ▸ dictHas_upd_self d e.1 e.2)
    · exact ih (dictUpd d e.1 e.2) k h1

theorem dictKeys_insertAll_of_covered (es : List (κ × α)) :
    ∀ (d : List (κ × α)), (∀ k ∈ dictKeys es, dictHas d k = true) →
      dictKeys (insertAll d es) = dictKeys d := by
  induction es with
  | nil => intro d _; rfl
  | cons e es ih =>
    intro d h
    have h0 : dictHas d e.1 = true := h e.1 (by rw [dictKeys_cons]; exact List.mem_cons_self _ _)
    have h1 : ∀ k ∈ dictKeys es, dictHas (dictUpd d e.1 e.2) k = true := by
      intro k hk
      exact dictHas_upd_of_has d e.1 k e.2
        (h k (by rw [dictKeys_cons]; exact List.mem_cons_of_mem _ hk))
    calc dictKeys (insertAll (dictUpd d e.1 e.2) es)
        = dictKeys (dictUpd d e.1 e.2) := ih (dictUpd d e.1 e.2) h1
      _ = dictKeys d := dictKeys_upd_of_has d e.1 e.2 h0

theorem nodup_keys_insertAll (es : List (κ × α)) :
    ∀ (d : List (κ × α)), (dictKeys d).Nodup →
      (dictKeys (insertAll d es)).Nodup := by
  induction es with
  | nil => intro d h; exact h
  | cons e es ih =>
    intro d h
    exact ih (dictUpd d e.1 e.2) (nodup_keys_upd d e.1 e.2 h)

theorem dictGet?_insertAll (es : List (κ × α)) :
    ∀ (d : List (κ × α)) (k : κ),
      dictGet? (insertAll d es) k = (lastVal k es).elim (dictGet? d k) some := by
  induction es with
  | nil => intro d k; rfl
  | cons e es ih =>
    intro d k
    show dictGet? (insertAll (dictUpd d e.1 e.2) es) k = _
    rw [ih (dictUpd d e.1 e.2) k]
    cases hlv : lastVal k es with
    | some v => simp [lastVal, hlv]
    | none =>
      by_cases he : e.1 = k
      · subst he
        simp [lastVal, hlv, dictGet?_upd_self d e.1 e.2]
      · have hne : k ≠ e.1 := fun hh => he hh.symm
        simp [lastVal, hlv, he, dictGet?_upd_ne d e.1 k e.2 hne]

theorem dictGet?_eq_none_of_not_mem (d : List (κ × α)) (k : κ)
    (h : k ∉ dictKeys d) : dictGet? d k = none := by
  induction d with
  | nil => rfl
  | cons e es ih =>
    have he : ¬ (e.1 = k) := fun hh => h (by simp [dictKeys, hh])
    have h' : k ∉ dictKeys es := fun hm => h (by simp [dictKeys] at hm ⊢; right; exact hm)
    simp [dictGet?, he, ih h']

theorem dict_ext (d1 : List (κ × α)) :
    ∀ (d2 : List (κ × α)), (dictKeys d1).Nodup → dictKeys d1 = dictKeys d2 →
      (∀ k, dictGet? d1 k = dictGet? d2 k) → d1 = d2 := by
  induction d1 with
  | nil =>
    intro d2 _ hk _
    cases d2 with
    | nil => rfl
    | cons e es =>
      rw [dictKeys_cons] at hk
      cases hk
  | cons e1 t1 ih =>
    intro d2 hnd hk hg
    cases d2 with
    | nil =>
      rw [dictKeys_cons] at hk
      cases hk
    | cons e2 t2 =>
      rw [dictKeys_cons, dictKeys_cons] at hk
      injection hk with hk1 hkt
      rw [dictKeys_cons] at hnd
      have hmem : e1.1 ∉ dictKeys t1 := (List.nodup_cons.mp hnd).1
      have hmem2 : e1.1 ∉ dictKeys t2 := hkt ▸ hmem
      have hv : e1.2 = e2.2 := by
        have h1 := hg e1.1
        rw [dictGet?_cons, dictGet?_cons, if_pos rfl, if_pos hk1.symm] at h1
        exact Option.some.inj h1
      have ht : t1 = t2 := by
        apply ih t2 (List.nodup_cons.mp hnd).2 hkt
        intro k
        by_cases hke : k = e1.1
        · subst hke
          rw [dictGet?_eq_none_of_not_mem t1 e1.1 hmem,
            dictGet?_eq_none_of_not_mem t2 e1.1 hmem2]
        · have h1 := hg k
          have he1 : ¬ (e1.1 = k) := fun hh => hke hh.symm
          have he2 : ¬ (e2.1 = k) := by
            rw [← hk1]
            exact he1
          rw [dictGet?_cons, dictGet?_cons, if_neg he1, if_neg he2] at h1
          exact h1
      have he : e1 = e2 := by
        cases e1 with
        | mk a b =>
          cases e2 with
          | mk a2 b2 =>
            rw [Prod.mk.injEq]
            exact ⟨hk1, hv⟩
      rw [he, ht]

theorem insertAll_replay (d es : List (κ × α)) (hnd : (dictKeys d).Nodup) :
    insertAll (insertAll d es) es = insertAll d es := by
  apply dict_ext
  · exact nodup_keys_insertAll es (insertAll d es) (nodup_keys_insertAll es d hnd)
  · apply dictKeys_insertAll_of_covered
    intro k hk
    exact dictHas_insertAll_of_mem es d k hk
  · intro k
    rw [dictGet?_insertAll es (insertAll d es) k, dictGet?_insertAll es d k]
    cases lastVal k es <;> rfl

end DictLemmas

/-! ## Loop lemmas -/

theorem dictGet?_isSome_of_has {κ α : Type} [DecidableEq κ]
    (d : List (κ × α)) (k : κ) (h : dictHas d k = true) :
    (dictGet? d k).isSome = true := by
  induction d with
  | nil => cases h
  | cons e es ih =>
    by_cases he : e.1 = k
    · simp [dictGet?, he]
    · have h' : dictHas es k = true := by simpa [dictHas, he] using h
      simp [dictGet?, he, ih h']

theorem dictHas_mapAppend (d : List (Int × List Record)) (cur k : Int) (r : Record) :
    dictHas (d.map (fun p => if p.1 = cur then (p.1, p.2 ++ [r]) else p)) k
      = dictHas d k := by
  induction d with
  | nil => rfl
  | cons e es ih =>
    by_cases he : e.1 = cur <;> simp [dictHas, he, ih]

/-- Every run of `parseLoop` performs the assignments `loopEntries` lists,
starting from the incoming `stepValues` table — the loop writes the table
but never reads it. -/
theorem parseLoop_values (decode : String → Except PyErr Record) :
    ∀ (ls : List String) (cur : Int) (st : AnalyzerState),
      (parseLoop decode cur st ls).1.stepValues =
        insertAll st.stepValues (loopEntries decode ls) := by
  intro ls
  induction ls with
  | nil => intro cur st; rfl
  | cons l ls ih =>
    intro cur st
    by_cases hm : containsSub "Step Information:" l = true
    · simp only [parseLoop, loopEntries, hm, if_pos]
      cases hms : matchStepLine l.data with
      | none => simp [parseParameterStep, stepEntry, hms, insertAll]
      | some g =>
        obtain ⟨g1, g2, g3, g4⟩ := g
        cases hpi : pyInt (String.mk g3) with
        | none => simp [parseParameterStep, stepEntry, hms, hpi, insertAll]
        | some n =>
          simp only [parseParameterStep, stepEntry, hms, hpi]
          rw [ih]
          rfl
    · simp only [parseLoop, loopEntries, hm, if_neg, Bool.false_eq_true, not_false_eq_true]
      cases hd : decode l with
      | error e => simp [insertAll]
      | ok r =>
        rw [ih]

/-- The loop's control flow, labels and data are independent of the incoming
`stepValues` table. -/
theorem parseLoop_congr (decode : String → Except PyErr Record) :
    ∀ (ls : List String) (cur : Int) (ft : FileType) (pp : List String)
      (lab : Option String) (v v' : List (Int × String)) (dt : List (Int × List Record)),
      (parseLoop decode cur ⟨ft, pp, lab, v', dt⟩ ls).2 =
          (parseLoop decode cur ⟨ft, pp, lab, v, dt⟩ ls).2 ∧
        (parseLoop decode cur ⟨ft, pp, lab, v', dt⟩ ls).1.file_type =
          (parseLoop decode cur ⟨ft, pp, lab, v, dt⟩ ls).1.file_type ∧
        (parseLoop decode cur ⟨ft, pp, lab, v', dt⟩ ls).1.probe_points =
          (parseLoop decode cur ⟨ft, pp, lab, v, dt⟩ ls).1.probe_points ∧
        (parseLoop decode cur ⟨ft, pp, lab, v', dt⟩ ls).1.stepLabel =
          (parseLoop decode cur ⟨ft, pp, lab, v, dt⟩ ls).1.stepLabel ∧
        (parseLoop decode cur ⟨ft, pp, lab, v', dt⟩ ls).1.data =
          (parseLoop decode cur ⟨ft, pp, lab, v, dt⟩ ls).1.data := by
  intro ls
  induction ls with
  | nil => intro cur ft pp lab v v' dt; exact ⟨rfl, rfl, rfl, rfl, rfl⟩
  | cons l ls ih =>
    intro cur ft pp lab v v' dt
    by_cases hm : containsSub "Step Information:" l = true
    · simp only [parseLoop, hm, if_pos]
      cases hms : matchStepLine l.data with
      | none => simp [parseParameterStep, hms]
      | some g =>
        obtain ⟨g1, g2, g3, g4⟩ := g
        cases hpi : pyInt (String.mk g3) with
        | none => simp [parseParameterStep, hms, hpi]
        | some n =>
          simp only [parseParameterStep, hms, hpi]
          exact ih n ft pp (some (String.mk g1))
            (dictUpd v n (rstrip (String.mk g2)))
            (dictUpd v' n (rstrip (String.mk g2)))
            (dictUpd dt n [])
    · simp only [parseLoop, hm, if_neg, Bool.false_eq_true, not_false_eq_true]
      cases hd : decode l with
      | error e => exact ⟨rfl, rfl, rfl, rfl, rfl⟩
      | ok r =>
        exact ih cur ft pp lab v v'
          (dt.map (fun p => if p.1 = cur then (p.1, p.2 ++ [r]) else p))

/-- Keys present in `data` when the loop starts are still present when it
stops, whether it stops normally or by raising. -/
theorem parseLoop_data_has (decode : String → Except PyErr Record) :
    ∀ (ls : List String) (cur : Int) (st : AnalyzerState) (k : Int),
      dictHas st.data k = true →
      dictHas (parseLoop decode cur st ls).1.data k = true := by
  intro ls
  induction ls with
  | nil => intro cur st k h; exact h
  | cons l ls ih =>
    intro cur st k h
    by_cases hm : containsSub "Step Information:" l = true
    · simp only [parseLoop, hm, if_pos]
      cases hms : matchStepLine l.data with
      | none => simpa [parseParameterStep, hms] using h
      | some g =>
        obtain ⟨g1, g2, g3, g4⟩ := g
        cases hpi : pyInt (String.mk g3) with
        | none => simpa [parseParameterStep, hms, hpi] using h
        | some n =>
          simp only [parseParameterStep, hms, hpi]
          exact ih n _ k (dictHas_upd_of_has _ n k [] h)
    · simp only [parseLoop, hm, if_neg, Bool.false_eq_true, not_false_eq_true]
      cases hd : decode l with
      | error e => exact h
      | ok r =>
        apply ih
        rw [dictHas_mapAppend]
        exact h

/-- Two analyzer states with equal fields are equal. -/
theorem analyzer_ext (a b : AnalyzerState) (h1 : a.file_type = b.file_type)
    (h2 : a.probe_points = b.probe_points) (h3 : a.stepLabel = b.stepLabel)
    (h4 : a.stepValues = b.stepValues) (h5 : a.data = b.data) : a = b := by
  cases a with
  | mk a1 a2 a3 a4 a5 =>
    cases b with
    | mk b1 b2 b3 b4 b5 =>
      rw [AnalyzerState.mk.injEq]
      exact ⟨h1, h2, h3, h4, h5⟩

/-- `parse_data_file` with its let-bindings expanded. -/
theorem parse_data_file_unfold (st : AnalyzerState) (lines : List String) :
    parse_data_file st lines =
      match classifyHeaderField ((splitTab (headLine lines)).headD "") with
      | FileType.AC_FREQUENCY_PHASE =>
        parse_freq_file
          ⟨classifyHeaderField ((splitTab (headLine lines)).headD ""),
            ((splitTab (headLine lines)).drop 1).map rstrip, none, st.stepValues, []⟩
          (bodyLines lines)
      | FileType.TRANSIENT =>
        parse_transient_file
          ⟨classifyHeaderField ((splitTab (headLine lines)).headD ""),
            ((splitTab (headLine lines)).drop 1).map rstrip, none, st.stepValues, []⟩
          (bodyLines lines)
      | _ =>
        (⟨classifyHeaderField ((splitTab (headLine lines)).headD ""),
          ((splitTab (headLine lines)).drop 1).map rstrip, none, st.stepValues, []⟩, none) :=
  rfl

/-- Replaying the loop from a successful run's final `stepValues` (and the
same fresh remaining state) reproduces the run exactly: the `stepValues`
assignments are replayed onto a table that already absorbed them, and
nothing else reads the table. -/
theorem parseLoop_replay (decode : String → Except PyErr Record)
    (ls : List String) (ft : FileType) (pp : List String) (lab : Option String)
    (st1 : AnalyzerState)
    (h : parseLoop decode 0 ⟨ft, pp, lab, [], dictUpd [] 0 []⟩ ls = (st1, none)) :
    parseLoop decode 0 ⟨ft, pp, lab, st1.stepValues, dictUpd [] 0 []⟩ ls = (st1, none) := by
  have hfst : (parseLoop decode 0 ⟨ft, pp, lab, [], dictUpd [] 0 []⟩ ls).1 = st1 := by
    rw [h]
  have hsnd : (parseLoop decode 0 ⟨ft, pp, lab, [], dictUpd [] 0 []⟩ ls).2 = none := by
    rw [h]
  have hc := parseLoop_congr decode ls 0 ft pp lab [] st1.stepValues (dictUpd [] 0 [])
  have hv1 := parseLoop_values decode ls 0 ⟨ft, pp, lab, [], dictUpd [] 0 []⟩
  have hv2 := parseLoop_values decode ls 0 ⟨ft, pp, lab, st1.stepValues, dictUpd [] 0 []⟩
  have hsv : st1.stepValues = insertAll [] (loopEntries decode ls) := by
    rw [← hfst, hv1]
  rw [Prod.ext_iff]
  constructor
  · apply analyzer_ext
    · rw [hc.2.1, hfst]
    · rw [hc.2.2.1, hfst]
    · rw [hc.2.2.2.1, hfst]
    · rw [hv2, hsv]
      exact insertAll_replay [] (loopEntries decode ls) List.nodup_nil
    · rw [hc.2.2.2.2, hfst]
  · rw [hc.1, hsnd]

/-! ## Pattern-decomposition lemmas -/

theorem takeWhile_append_stop (q : Char → Bool) (l : List Char) (c : Char) (r : List Char)
    (hl : l.all q = true) (hc : q c = false) :
    (l ++ c :: r).takeWhile q = l := by
  induction l with
  | nil => simp [List.takeWhile_cons, hc]
  | cons a t ih =>
    rw [List.all_cons, Bool.and_eq_true] at hl
    rw [List.cons_append, List.takeWhile_cons, hl.1, ih hl.2]
    simp

theorem dropWhile_append_stop (q : Char → Bool) (l : List Char) (c : Char) (r : List Char)
    (hl : l.all q = true) (hc : q c = false) :
    (l ++ c :: r).dropWhile q = c :: r := by
  induction l with
  | nil => simp [List.dropWhile_cons, hc]
  | cons a t ih =>
    rw [List.all_cons, Bool.and_eq_true] at hl
    rw [List.cons_append, List.dropWhile_cons, hl.1]
    exact ih hl.2

/-- Group 1 of the frequency pattern is everything before the first tab. -/
theorem matchFreqLine_split (f r2 : List Char)
    (hf : f.all (fun c => c != '\t') = true) :
    matchFreqLine (f ++ '\t' :: '(' :: r2) = freqTail1 r2 f := by
  unfold matchFreqLine
  rw [dropWhile_append_stop (fun c => c != '\t') f '\t' ('(' :: r2) hf rfl,
    takeWhile_append_stop (fun c => c != '\t') f '\t' ('(' :: r2) hf rfl]
  rfl

/-- Group 2 of the frequency pattern is everything before the literal `dB,`. -/
theorem freqTail1_split (a r3 g1 : List Char)
    (ha : a.all (fun c => !(c == 'd' || c == 'B')) = true) :
    freqTail1 (a ++ 'd' :: 'B' :: ',' :: r3) g1 = freqTail2 r3 g1 a := by
  unfold freqTail1
  rw [dropWhile_append_stop (fun c => !(c == 'd' || c == 'B')) a 'd'
      ('B' :: ',' :: r3) ha rfl,
    takeWhile_append_stop (fun c => !(c == 'd' || c == 'B')) a 'd'
      ('B' :: ',' :: r3) ha rfl]
  rfl

/-- Group 3 of the frequency pattern is everything before the degree glyph;
text after the closing parenthesis is ignored. -/
theorem freqTail2_split (p trail g1 g2 : List Char)
    (hp : p.all (fun c => c != '°') = true) :
    freqTail2 (p ++ '°' :: ')' :: trail) g1 g2 = some (g1, g2, p) := by
  unfold freqTail2
  rw [dropWhile_append_stop (fun c => c != '°') p '°' (')' :: trail) hp rfl,
    takeWhile_append_stop (fun c => c != '°') p '°' (')' :: trail) hp rfl]
  rfl

theorem dictHas_append_single {κ α : Type} [DecidableEq κ]
    (d : List (κ × α)) (k q : κ) (v : α) :
    dictHas (d ++ [(k, v)]) q = (dictHas d q || decide (k = q)) := by
  induction d with
  | nil => simp [dictHas]
  | cons e es ih =>
    rw [List.cons_append]
    show (decide (e.1 = q) || dictHas (es ++ [(k, v)]) q) = _
    rw [ih, dictHas, Bool.or_assoc]

/-- The keys written by the per-probe loop are exactly the probe names, in
order, appended after whatever the accumulator already held — provided the
probe names are distinct and none of them is already in the accumulator. -/
theorem buildOutputs_keys :
    ∀ (pairs acc outs : List (String × String)),
      (pairs.map Prod.fst).Nodup →
      (∀ q ∈ pairs.map Prod.fst, dictHas acc q = false) →
      buildOutputs pairs acc = Except.ok outs →
      outs.map Prod.fst = acc.map Prod.fst ++ pairs.map Prod.fst := by
  intro pairs
  induction pairs with
  | nil =>
    intro acc outs _ _ h
    cases h
    simp
  | cons e rest ih =>
    intro acc outs hnd hcov h
    obtain ⟨p, f⟩ := e
    cases hv : pyFloat f with
    | none =>
      rw [buildOutputs, hv] at h
      cases h
    | some v =>
      rw [buildOutputs, hv] at h
      have hpnot : dictHas acc p = false := hcov p (by simp)
      have hupd : dictUpd acc p v = acc ++ [(p, v)] := by
        unfold dictUpd
        rw [hpnot]
        simp
      have hnd' : (rest.map Prod.fst).Nodup := by
        rw [List.map_cons] at hnd
        exact (List.nodup_cons.mp hnd).2
      have hpmem : p ∉ rest.map Prod.fst := by
        rw [List.map_cons] at hnd
        exact (List.nodup_cons.mp hnd).1
      have hcov' : ∀ q ∈ rest.map Prod.fst, dictHas (dictUpd acc p v) q = false := by
        intro q hq
        rw [hupd, dictHas_append_single]
        have h1 : dictHas acc q = false := hcov q (by simp [hq])
        have h2 : ¬ (p = q) := fun hh => hpmem (hh ▸ hq)
        simp [h1, h2]
      have hkeys := ih (dictUpd acc p v) outs hnd' hcov' h
      rw [hkeys, hupd]
      simp

/-! ## The claims -/

/-- Claim C1, counterexample: the claim requires every first field containing
the time-axis token to classify as Transient, but a field containing both
tokens classifies as frequency response, because the source tests `'Freq.'`
first (src/main.py lines 83-86). -/
theorem claim1_counterexample :
    containsSub "time" "Freq. time" = true ∧
    classifyHeaderField "Freq. time" ≠ FileType.TRANSIENT := by
  decide

/-- Claim C1 (amended): the frequency token takes precedence — a first field
containing `'Freq.'` classifies as frequency response; otherwise one
containing `'time'` classifies as transient; otherwise the kind stays
Invalid. -/
theorem claim1_thm (s : String) :
    (containsSub "Freq." s = true →
      classifyHeaderField s = FileType.AC_FREQUENCY_PHASE) ∧
    (containsSub "Freq." s = false → containsSub "time" s = true →
      classifyHeaderField s = FileType.TRANSIENT) ∧
    (containsSub "Freq." s = false → containsSub "time" s = false →
      classifyHeaderField s = FileType.INVALID) := by
  refine ⟨?_, ?_, ?_⟩
  · intro h
    simp [classifyHeaderField, h]
  · intro h1 h2
    simp [classifyHeaderField, h1, h2]
  · intro h1 h2
    simp [classifyHeaderField, h1, h2]

/-- Claim C1, witness: each branch of the amended classification at a
concrete header field. -/
theorem claim1_witness :
    classifyHeaderField "Freq." = FileType.AC_FREQUENCY_PHASE ∧
    classifyHeaderField "time" = FileType.TRANSIENT ∧
    classifyHeaderField "foo" = FileType.INVALID :=
  ⟨(claim1_thm "Freq.").1 (by decide),
    (claim1_thm "time").2.1 (by decide) (by decide),
    (claim1_thm "foo").2.2 (by decide) (by decide)⟩

/-- Claim C2, counterexample: a frequency parse whose step line `Run: 1/3`
appears, is followed by one decoded record, and then appears again.  The
claim says the repeated boundary leaves the accumulated sequence for index 1
intact; in fact `self.data[current_step_number] = []` re-runs and the bucket
ends empty — the record is discarded, yet the parse reports success. -/
theorem claim2_counterexample :
    (parse_data_file initState
        ["Freq.\tV(out)", "Step Information: R=1k (Run: 1/3)",
          "100\t(-3.0dB,-45°)", "Step Information: R=1k (Run: 1/3)"]).2 = none ∧
    dictGet? (parse_data_file initState
        ["Freq.\tV(out)", "Step Information: R=1k (Run: 1/3)",
          "100\t(-3.0dB,-45°)", "Step Information: R=1k (Run: 1/3)"]).1.data 1
      = some ([] : List Record) := by
  decide

/-- Claim C2 (amended): a successfully parsed step-boundary line resets the
bucket of its run index to the empty sequence — clearing any records already
accumulated there — and the loop continues from that index, so records
decoded after the line are appended to the fresh bucket. -/
theorem claim2_thm (decode : String → Except PyErr Record) (cur : Int)
    (st st' : AnalyzerState) (l : String) (ls : List String) (n : Int)
    (hm : containsSub "Step Information:" l = true)
    (hp : parseParameterStep l st = (st', Except.ok n)) :
    parseLoop decode cur st (l :: ls) =
      parseLoop decode n { st' with data := dictUpd st'.data n [] } ls ∧
    dictGet? (dictUpd st'.data n []) n = some ([] : List Record) := by
  constructor
  · simp only [parseLoop, hm, if_pos, hp]
  · exact dictGet?_upd_self st'.data n []

/-- Claim C2, witness: the boundary line `Run: 1/3` on a state already
holding a record under index 1 resets that bucket to `[]`. -/
theorem claim2_witness :
    parseLoop decodeFreqLine 0
        ⟨FileType.AC_FREQUENCY_PHASE, [], none, [],
          [(1, [Record.freq "9" "9" "9"])]⟩
        ["Step Information: R=1k (Run: 1/3)"] =
      parseLoop decodeFreqLine 1
        ⟨FileType.AC_FREQUENCY_PHASE, [], some "R", [(1, "1k")], [(1, [])]⟩ [] ∧
    dictGet? [(1, ([] : List Record))] 1 = some ([] : List Record) :=
  claim2_thm decodeFreqLine 0
    ⟨FileType.AC_FREQUENCY_PHASE, [], none, [], [(1, [Record.freq "9" "9" "9"])]⟩
    ⟨FileType.AC_FREQUENCY_PHASE, [], some "R", [(1, "1k")],
      [(1, [Record.freq "9" "9" "9"])]⟩
    "Step Information: R=1k (Run: 1/3)" [] 1 (by decide) (by decide)

/-- Claim C3, counterexample: with a duplicated probe name the decode
succeeds but the `output` dict collapses the duplicate key, so it has one
entry instead of `len(ProbeList) = 2` and its keys differ from the probe
list. -/
theorem claim3_counterexample :
    decodeTransLine ["V(a)", "V(a)"] "0\t1\t2"
        = Except.ok (Record.trans "0" [("V(a)", "2")]) ∧
    (transOutputs (Record.trans "0" [("V(a)", "2")])).map Prod.fst
        ≠ ["V(a)", "V(a)"] := by
  decide

/-- Claim C3 (amended): a tab-split field count other than
`len(ProbeList) + 1` is a hard failure with no record; and when the probe
names are distinct, a successful decode yields an `output` mapping whose
keys are exactly the probe list, in order (hence exactly
`len(ProbeList)` entries). -/
theorem claim3_thm (pp : List String) (l : String) :
    ((splitTab l).length ≠ pp.length + 1 →
      decodeTransLine pp l = Except.error PyErr.invalidData) ∧
    (pp.Nodup → ∀ (t : String) (outs : List (String × String)),
      decodeTransLine pp l = Except.ok (Record.trans t outs) →
      outs.map Prod.fst = pp) := by
  constructor
  · intro h
    unfold decodeTransLine
    rw [if_pos h]
  · intro hnd t outs h
    unfold decodeTransLine at h
    by_cases hlen : (splitTab l).length ≠ pp.length + 1
    · rw [if_pos hlen] at h
      cases h
    · rw [if_neg hlen] at h
      push_neg at hlen
      cases hv : pyFloat ((splitTab l).headD "") with
      | none =>
        rw [hv] at h
        cases h
      | some tv =>
        rw [hv] at h
        cases hb : buildOutputs (pp.zip ((splitTab l).drop 1)) [] with
        | error e =>
          rw [hb] at h
          cases h
        | ok os =>
          rw [hb] at h
          have hos : os = outs := by
            have h1 : Record.trans tv os = Record.trans t outs := Except.ok.inj h
            rw [Record.trans.injEq] at h1
            exact h1.2
          have hflen : pp.length ≤ ((splitTab l).drop 1).length := by
            rw [List.length_drop, hlen]
            simp
          have hfst : (pp.zip ((splitTab l).drop 1)).map Prod.fst = pp :=
            List.map_fst_zip pp ((splitTab l).drop 1) hflen
          have hkeys := buildOutputs_keys (pp.zip ((splitTab l).drop 1)) [] os
            (by rw [hfst]; exact hnd) (by intro q _; rfl) hb
          rw [← hos, hkeys, hfst]
          rfl

/-- Claim C3, witness: the field-count failure at a one-field line, and a
successful decode whose output keys equal the probe list. -/
theorem claim3_witness :
    decodeTransLine ["V(out)"] "0.0" = Except.error PyErr.invalidData ∧
    [("V(out)", "1.5")].map Prod.fst = ["V(out)"] :=
  ⟨(claim3_thm ["V(out)"] "0.0").1 (by decide),
    (claim3_thm ["V(out)"] "0.0\t1.5").2 (by decide) "0.0"
      [("V(out)", "1.5")] (by decide)⟩

/-- Claim C4 (code bug): a frequency data line whose punctuation deviates
from the pattern (no tab here) makes `re.match` return `None` and the code
then calls `.groups()` on it, raising `AttributeError` — not the intended
`InvalidDataException` (`InvalidDataFormat`), whose guard is unreachable;
and a matched but non-numeric field raises `ValueError` from `float()`. -/
theorem claim4_thm :
    decodeFreqLine "100 (-3.0dB,-45°)" = Except.error PyErr.attributeError ∧
    PyErr.attributeError ≠ PyErr.invalidData ∧
    decodeFreqLine "abc\t(xxdB,1°)" = Except.error PyErr.valueError := by
  decide

/-- Claim C5 (code bug): a step-boundary line that does not match the
pattern raises `AttributeError` (`.groups()` on `None`), not a typed
failure; a non-integer run field raises `ValueError` from the `int()` on
line 145, before the guarded `try`, so neither the typed exception nor
`sys.exit(-1)` is reachable.  (The state is returned unchanged in the first
case; in the second the label has already been mutated.) -/
theorem claim5_thm :
    parseParameterStep "Step Information: junk" initState
        = (initState, Except.error PyErr.attributeError) ∧
    (parseParameterStep "Step Information: R=1k (Run: x/3)" initState).2
        = Except.error PyErr.valueError := by
  decide

/-- Claim C6, counterexample: a transient parse that decodes one good record
and then fails on a malformed line reports the failure, yet the partially
built `DataSet` — including the decoded record under step 0 — remains in the
analyzer state, contradicting all-or-nothing atomicity. -/
theorem claim6_counterexample :
    (parse_data_file initState ["time\tV(out)", "0.0\t1.5", "bad line"]).2
        = some PyErr.invalidData ∧
    dictGet? (parse_data_file initState
        ["time\tV(out)", "0.0\t1.5", "bad line"]).1.data 0
      = some [Record.trans "0.0" [("V(out)", "1.5")]] := by
  decide

/-- Claim C6 (amended): a failing parse aborts with the error, but the
partially built Data Model stays on the analyzer — at minimum the step-0
bucket of `DataSet` exists in the state left behind (it is only discarded
when the next parse call re-initializes the fields). -/
theorem claim6_thm (st : AnalyzerState) (lines : List String)
    (h : (parse_data_file st lines).2.isSome = true) :
    (dictGet? (parse_data_file st lines).1.data 0).isSome = true := by
  rw [parse_data_file_unfold] at h ⊢
  revert h
  cases classifyHeaderField ((splitTab (headLine lines)).headD "") with
  | INVALID =>
    intro h
    simp at h
  | AC_REAL_IMAG =>
    intro h
    simp at h
  | AC_FREQUENCY_PHASE =>
    intro h
    apply dictGet?_isSome_of_has
    apply parseLoop_data_has
    exact dictHas_upd_self [] 0 []
  | TRANSIENT =>
    intro h
    apply dictGet?_isSome_of_has
    apply parseLoop_data_has
    exact dictHas_upd_self [] 0 []

/-- Claim C6, witness: the failing transient parse above leaves a step-0
bucket behind. -/
theorem claim6_witness :
    (dictGet? (parse_data_file initState ["time\tV(out)", "junk"]).1.data 0).isSome
      = true :=
  claim6_thm initState ["time\tV(out)", "junk"] (by decide)

/-- Claim C7, counterexample: a header matching neither token makes
`parse_data_file` return normally — no error is reported — with
`file_type = INVALID` and an empty `DataSet`, exactly the silent empty
"success" the claim says cannot happen. -/
theorem claim7_counterexample :
    (parse_data_file initState ["foo\tbar"]).2 = none ∧
    (parse_data_file initState ["foo\tbar"]).1.file_type = FileType.INVALID ∧
    (parse_data_file initState ["foo\tbar"]).1.data = [] := by
  decide

/-- Claim C7 (amended): when the first header field contains neither axis
token the parse returns normally with no error; the condition is observable
only through `file_type = INVALID` (with the probe list still extracted and
an empty `DataSet`). -/
theorem claim7_thm (st : AnalyzerState) (lines : List String)
    (h : classifyHeaderField ((splitTab (headLine lines)).headD "")
        = FileType.INVALID) :
    parse_data_file st lines =
      (⟨FileType.INVALID, ((splitTab (headLine lines)).drop 1).map rstrip,
        none, st.stepValues, []⟩, none) := by
  rw [parse_data_file_unfold, h]

/-- Claim C7, witness: the unrecognized header `"foo\tbar"`. -/
theorem claim7_witness :
    parse_data_file initState ["foo\tbar"] =
      (⟨FileType.INVALID, ["bar"], none, [], []⟩, none) :=
  claim7_thm initState ["foo\tbar"] (by decide)

/-- Claim C8 (code bug): `StepInfo.values` is a class attribute, so the dict
is shared by every `StepInfo()` instance and survives the fresh instance
made at the start of each parse.  After parsing a file with step line
`Run: 1/3` and then a file with no step line at all, the second parse's
model still carries `values = {1: '1k'}` — the Data Model does not start
fresh. -/
theorem claim8_thm :
    (parse_data_file
        (parse_data_file initState
          ["Freq.\tV(out)", "Step Information: R=1k (Run: 1/3)"]).1
        ["time\tV(out)"]).1.stepValues = [(1, "1k")] ∧
    (parse_data_file
        (parse_data_file initState
          ["Freq.\tV(out)", "Step Information: R=1k (Run: 1/3)"]).1
        ["time\tV(out)"]).2 = none := by
  decide

/-- Claim C9: parsing the same input twice in succession on one analyzer —
the second call starting from the state the first left — yields the same
model when the first parse succeeds: all fields are rebuilt identically and
replaying the `StepInfo.values` assignments onto the table that already
absorbed them changes nothing. -/
theorem claim9_thm (lines : List String) (st1 : AnalyzerState)
    (h : parse_data_file initState lines = (st1, none)) :
    parse_data_file st1 lines = (st1, none) := by
  rw [parse_data_file_unfold] at h ⊢
  revert h
  cases classifyHeaderField ((splitTab (headLine lines)).headD "") with
  | INVALID =>
    intro h
    have h1 : (⟨FileType.INVALID, ((splitTab (headLine lines)).drop 1).map rstrip,
        none, initState.stepValues, []⟩ : AnalyzerState) = st1 := congrArg Prod.fst h
    subst h1
    rfl
  | AC_REAL_IMAG =>
    intro h
    have h1 : (⟨FileType.AC_REAL_IMAG, ((splitTab (headLine lines)).drop 1).map rstrip,
        none, initState.stepValues, []⟩ : AnalyzerState) = st1 := congrArg Prod.fst h
    subst h1
    rfl
  | AC_FREQUENCY_PHASE =>
    intro h
    exact parseLoop_replay decodeFreqLine (bodyLines lines)
      FileType.AC_FREQUENCY_PHASE (((splitTab (headLine lines)).drop 1).map rstrip)
      none st1 h
  | TRANSIENT =>
    intro h
    exact parseLoop_replay
      (decodeTransLine (((splitTab (headLine lines)).drop 1).map rstrip))
      (bodyLines lines) FileType.TRANSIENT
      (((splitTab (headLine lines)).drop 1).map rstrip) none st1 h

/-- Claim C9, witness: a small transient file parsed twice. -/
theorem claim9_witness :
    parse_data_file
        ⟨FileType.TRANSIENT, ["V(out)"], none, [],
          [(0, [Record.trans "0.0" [("V(out)", "1.5")]])]⟩
        ["time\tV(out)", "0.0\t1.5"] =
      (⟨FileType.TRANSIENT, ["V(out)"], none, [],
        [(0, [Record.trans "0.0" [("V(out)", "1.5")]])]⟩, none) :=
  claim9_thm ["time\tV(out)", "0.0\t1.5"]
    ⟨FileType.TRANSIENT, ["V(out)"], none, [],
      [(0, [Record.trans "0.0" [("V(out)", "1.5")]])]⟩ (by decide)

/-- Claim C10: the frequency pattern is matched by `re.match`, i.e. against
a prefix only — a line that begins with a well-formed
`<frequency> TAB (<amplitude>dB,<phase>°)` prefix decodes successfully from
that prefix, whatever trails the closing parenthesis. -/
theorem claim10_thm (f a p trail : List Char) (vf va vp : String)
    (hf : f.all (fun c => c != '\t') = true)
    (ha : a.all (fun c => !(c == 'd' || c == 'B')) = true)
    (hp : p.all (fun c => c != '°') = true)
    (hvf : pyFloat (String.mk f) = some vf)
    (hva : pyFloat (String.mk a) = some va)
    (hvp : pyFloat (String.mk p) = some vp) :
    decodeFreqLine (String.mk
        (f ++ '\t' :: '(' :: (a ++ 'd' :: 'B' :: ',' :: (p ++ '°' :: ')' :: trail))))
      = Except.ok (Record.freq vf va vp) := by
  have hm : matchFreqLine
      (f ++ '\t' :: '(' :: (a ++ 'd' :: 'B' :: ',' :: (p ++ '°' :: ')' :: trail)))
      = some (f, a, p) := by
    rw [matchFreqLine_split f (a ++ 'd' :: 'B' :: ',' :: (p ++ '°' :: ')' :: trail)) hf,
      freqTail1_split a (p ++ '°' :: ')' :: trail) f ha,
      freqTail2_split p trail f a hp]
  unfold decodeFreqLine
  have hdata : (String.mk
      (f ++ '\t' :: '(' :: (a ++ 'd' :: 'B' :: ',' :: (p ++ '°' :: ')' :: trail)))).data
      = f ++ '\t' :: '(' :: (a ++ 'd' :: 'B' :: ',' :: (p ++ '°' :: ')' :: trail)) := rfl
  rw [hdata, hm]
  simp only [hvf, hva, hvp]

/-- Claim C10, witness: trailing text after the closing parenthesis is
ignored. -/
theorem claim10_witness :
    decodeFreqLine "100\t(-3.0dB,-45°)junk"
      = Except.ok (Record.freq "100" "-3.0" "-45") :=
  claim10_thm "100".data "-3.0".data "-45".data "junk".data "100" "-3.0" "-45"
    (by decide) (by decide) (by decide) (by decide) (by decide) (by decide)

end LTSpice
